import Mathlib

/-!
Verification of the fern-openapi converter (`src/converters/typeConverter.ts`
and the auth converter) against its specification.

The embedding is a direct translation of the TypeScript source into Lean:

* JavaScript objects are modelled as ordered association lists of
  key/value pairs (`Js.obj`), which captures JS insertion-order semantics;
  `undefined` is `Js.undef` (a key set to `undefined` is still present).
* Property assignment `o[k] = v` and object spread `{...o, k: v}` both keep
  an existing key's position and overwrite its value, otherwise append —
  modelled by `recSet`.
* Functions that can `throw` return `Except String`; the thrown message is
  the error value.
* Strings are treated as ASCII (the inputs fed to lodash's `camelCase` by
  this code are identifier segments); `lodashCamelCase` below reproduces
  lodash's word splitting and recasing on ASCII input.
-/

set_option autoImplicit false

/-- A JavaScript value as produced by the converter: strings, arrays,
objects with ordered fields, and `undefined`. -/
inductive Js where
  | str : String → Js
  | arr : List Js → Js
  | obj : List (String × Js) → Js
  | undef : Js
  deriving Repr

/-- JS property assignment / spread-with-literal semantics on an ordered
record: an existing key keeps its position and gets the new value, a new
key is appended at the end. -/
def recSet {α : Type} (l : List (String × α)) (k : String) (v : α) : List (String × α) :=
  if k ∈ l.map Prod.fst then
    l.map (fun f => if f.1 = k then (k, v) else f)
  else
    l ++ [(k, v)]

/-- Spread an object and set a key (`{...o, k: v}`). The converter only ever
spreads objects, so the non-object fallback is irrelevant in practice. -/
def jsSpreadSet (o : Js) (k : String) (v : Js) : Js :=
  match o with
  | .obj fields => .obj (recSet fields k v)
  | _ => .obj [(k, v)]

/-- Translation of `docs ?? undefined` into a `Js` value. -/
def jsOfDocs : Option String → Js
  | none => .undef
  | some s => .str s

/-! ### Name resolution (lodash `camelCase` / `upperFirst` on ASCII) -/

/-- ASCII alphanumeric: the characters lodash keeps inside words. -/
def isWordChar (c : Char) : Bool := c.isAlpha || c.isDigit

/-- One step of the word tokenizer. The state is (words emitted so far,
current word). Reproduces lodash's word splitting on ASCII: words are runs
of digits, runs of lowers optionally led by one upper, and runs of uppers —
where a run of uppers followed by a lower yields the run minus its last
upper, the last upper starting the next word (for example HTMLParser splits
as HTML, Parser). -/
def wordsStep : List (List Char) × List Char → Char → List (List Char) × List Char
  | (acc, w), c =>
    if c.isDigit then
      if w.isEmpty || w.all Char.isDigit then (acc, w ++ [c])
      else (acc ++ [w], [c])
    else if c.isLower then
      if w.all Char.isUpper && 2 ≤ w.length then
        (acc ++ [w.dropLast], [w.getLastD 'A', c])
      else if !w.isEmpty && w.all Char.isDigit then (acc ++ [w], [c])
      else (acc, w ++ [c])
    else if c.isUpper then
      if w.all Char.isUpper then (acc, w ++ [c])
      else (acc ++ [w], [c])
    else
      if w.isEmpty then (acc, w) else (acc ++ [w], [])

/-- lodash's `words` on an ASCII character list. -/
def lodashWords (l : List Char) : List (List Char) :=
  let s := l.foldl wordsStep ([], [])
  if s.2.isEmpty then s.1 else s.1 ++ [s.2]

/-- Lower-case a word (ASCII). -/
def lowerWord (w : List Char) : List Char := w.map Char.toLower

/-- lodash `capitalize` of an already scanned word: lower-case it, then
upper-case the first character. -/
def capitalizeWord (w : List Char) : List Char :=
  match lowerWord w with
  | [] => []
  | c :: cs => c.toUpper :: cs

/-- lodash `camelCase` on ASCII: strip apostrophes, split into words, then
lower-case the first word and capitalize the rest. -/
def lodashCamelCase (s : String) : String :=
  let chars := s.data.filter (fun c => c ≠ Char.ofNat 39)
  match lodashWords chars with
  | [] => ""
  | w :: ws => String.mk (lowerWord w ++ (ws.map capitalizeWord).flatten)

/-- lodash `upperFirst`. -/
def upperFirst (s : String) : String :=
  match s.data with
  | [] => ""
  | c :: cs => String.mk (c.toUpper :: cs)

/-- JavaScript `Array.prototype.join(" ")`. -/
def joinTokens : List String → String
  | [] => ""
  | [t] => t
  | t :: u :: rest => t ++ " " ++ joinTokens (u :: rest)

/-! ### The IR input model (from `@fern-fern/ir-model` as used by the code) -/

/-- A declared type's identity: its namespace path plus leaf name. -/
structure DeclaredTypeName where
  fernFilepath : List String
  name : String
  deriving Repr, DecidableEq

/-- `getNameFromDeclaredTypeName`: join the path segments and the leaf name
with spaces, camel-case, then upper-case the first letter. -/
def getNameFromDeclaredTypeName (declaredTypeName : DeclaredTypeName) : String :=
  let nameTokens := declaredTypeName.fernFilepath ++ [declaredTypeName.name]
  upperFirst (lodashCamelCase (joinTokens nameTokens))

/-- `getReferenceFromDeclaredTypeName`. -/
def getReferenceFromDeclaredTypeName (declaredTypeName : DeclaredTypeName) : String :=
  "#/components/schemas/" ++ getNameFromDeclaredTypeName declaredTypeName

example : getNameFromDeclaredTypeName ⟨["core", "models"], "user"⟩ = "CoreModelsUser" := by decide

/-- Primitive type kinds; `other` stands for a value whose `_type` tag is
outside the closed set (the `_unknown` case of the source visitor). -/
inductive PrimitiveType where
  | integer
  | double
  | string
  | boolean
  | long
  | dateTime
  | uuid
  | other (tag : String)
  deriving Repr, DecidableEq

mutual
/-- A type reference; `other` is an unrecognized `_type` tag. -/
inductive TypeReference where
  | container (containerType : ContainerType)
  | named (declaredTypeName : DeclaredTypeName)
  | primitive (primitiveType : PrimitiveType)
  | unknown
  | void
  | other (tag : String)

/-- A container type; `map` carries a key type that the converter never
inspects, and a value type. `other` is an unrecognized `_type` tag. -/
inductive ContainerType where
  | list (itemType : TypeReference)
  | set (itemType : TypeReference)
  | map (keyType : TypeReference) (valueType : TypeReference)
  | optional (itemType : TypeReference)
  | other (tag : String)
end

structure AliasTypeDeclaration where
  aliasOf : TypeReference

/-- An enum value; the converter reads only its `value` field. -/
structure EnumValue where
  value : String

structure EnumTypeDeclaration where
  values : List EnumValue

structure ObjectProperty where
  key : String
  valueType : TypeReference
  docs : Option String

structure ObjectTypeDeclaration where
  properties : List ObjectProperty
  extends_ : List DeclaredTypeName

structure SingleUnionType where
  discriminantValue : String
  valueType : TypeReference

structure UnionTypeDeclaration where
  discriminant : String
  types : List SingleUnionType

/-- The shape of a type declaration; `other` is an unrecognized `_type`
tag (the `_unknown` case of `Type._visit`). -/
inductive TypeShape where
  | alias (aliasTypeDeclaration : AliasTypeDeclaration)
  | enum (enumTypeDeclaration : EnumTypeDeclaration)
  | object (objectTypeDeclaration : ObjectTypeDeclaration)
  | union (unionTypeDeclaration : UnionTypeDeclaration)
  | other (tag : String)

structure TypeDeclaration where
  name : DeclaredTypeName
  docs : Option String
  shape : TypeShape

/-! ### The converter -/

/-- `convertPrimitiveType`: the fixed primitive mapping table. -/
def convertPrimitiveType (primitiveType : PrimitiveType) : Except String Js :=
  match primitiveType with
  | .boolean => .ok (.obj [("type", .str "boolean")])
  | .dateTime => .ok (.obj [("type", .str "string"), ("format", .str "date-time")])
  | .double => .ok (.obj [("type", .str "number"), ("format", .str "double")])
  | .integer => .ok (.obj [("type", .str "integer")])
  | .long => .ok (.obj [("type", .str "integer"), ("format", .str "int64")])
  | .string => .ok (.obj [("type", .str "string")])
  | .uuid => .ok (.obj [("type", .str "string"), ("format", .str "uuid")])
  | .other tag => .error ("Encountered unknown primitiveType: " ++ tag)

mutual
/-- `convertTypeReference`: dispatch on the reference kind. -/
def convertTypeReference (typeReference : TypeReference) : Except String Js :=
  match typeReference with
  | .container containerType => convertContainerType containerType
  | .named declaredTypeName =>
      .ok (.obj [("$ref", .str (getReferenceFromDeclaredTypeName declaredTypeName))])
  | .primitive primitiveType => convertPrimitiveType primitiveType
  | .unknown => .ok (.obj [])
  | .void => .ok (.obj [])
  | .other tag => .error ("Encountered unknown typeReference: " ++ tag)

/-- `convertContainerType`: list and set become arrays, map becomes
`additionalProperties` over the value type only, optional unwraps. -/
def convertContainerType (containerType : ContainerType) : Except String Js :=
  match containerType with
  | .list itemType => do
      let items ← convertTypeReference itemType
      return .obj [("type", .str "array"), ("items", items)]
  | .set itemType => do
      let items ← convertTypeReference itemType
      return .obj [("type", .str "array"), ("items", items)]
  | .map _ valueType => do
      let additionalProperties ← convertTypeReference valueType
      return .obj [("type", .str "object"), ("additionalProperties", additionalProperties)]
  | .optional itemType => convertTypeReference itemType
  | .other tag => .error ("Encountered unknown containerType: " ++ tag)
end

/-- `convertAlias`: convert the aliased reference and set `description`. -/
def convertAlias (aliasTypeDeclaration : AliasTypeDeclaration) (docs : Option String) :
    Except String Js := do
  let convertedAliasOf ← convertTypeReference aliasTypeDeclaration.aliasOf
  return jsSpreadSet convertedAliasOf "description" (jsOfDocs docs)

/-- `convertEnum`: a string schema enumerating the declared values. -/
def convertEnum (enumTypeDeclaration : EnumTypeDeclaration) (docs : Option String) : Js :=
  .obj [("type", .str "string"),
        ("enum", .arr (enumTypeDeclaration.values.map (fun enumValue => .str enumValue.value))),
        ("description", jsOfDocs docs)]

/-- The `isOptionalProperty` test from `convertObject`:
`valueType._type === "container" && valueType.container._type === "optional"`. -/
def isOptionalProperty : TypeReference → Bool
  | .container (.optional _) => true
  | _ => false

/-- The `forEach` loop body of `convertObject`, threading the `properties`
record and the `required` array. -/
def convertObjectProperties :
    List ObjectProperty → List (String × Js) → List String →
    Except String (List (String × Js) × List String)
  | [], properties, required => .ok (properties, required)
  | objectProperty :: rest, properties, required => do
      let convertedObjectProperty ← convertTypeReference objectProperty.valueType
      let properties :=
        recSet properties objectProperty.key
          (jsSpreadSet convertedObjectProperty "description" (jsOfDocs objectProperty.docs))
      let required :=
        if isOptionalProperty objectProperty.valueType then required
        else required ++ [objectProperty.key]
      convertObjectProperties rest properties required

/-- `convertObject`: the four base fields, plus `allOf` when `extends` is
non-empty. -/
def convertObject (objectTypeDeclaration : ObjectTypeDeclaration) (docs : Option String) :
    Except String Js := do
  let (properties, required) ← convertObjectProperties objectTypeDeclaration.properties [] []
  let convertedSchemaObject : List (String × Js) :=
    [("type", .str "object"),
     ("description", jsOfDocs docs),
     ("properties", .obj properties),
     ("required", .arr (required.map .str))]
  if objectTypeDeclaration.extends_.length > 0 then
    return .obj (convertedSchemaObject ++
      [("allOf", .arr (objectTypeDeclaration.extends_.map (fun declaredTypeName =>
        .obj [("$ref", .str (getReferenceFromDeclaredTypeName declaredTypeName))])))])
  else
    return .obj convertedSchemaObject

/-- The `map` body of `convertUnion` over the variants. In the non-named
branch the source assigns the discriminant key twice (first the tag enum,
then the converted payload), so the payload overwrites the tag. -/
def convertUnionTypes (discriminant : String) :
    List SingleUnionType → Except String (List Js)
  | [] => .ok []
  | singleUnionType :: rest => do
      let convertedValueType ← convertTypeReference singleUnionType.valueType
      let schema : Js :=
        match singleUnionType.valueType with
        | .named declaredTypeName =>
            let properties := recSet [] discriminant
              (Js.obj [("type", .str "string"),
                       ("enum", .arr [.str singleUnionType.discriminantValue])])
            Js.obj [("type", .str "object"),
                    ("allOf", .arr
                      [.obj [("$ref", .str (getReferenceFromDeclaredTypeName declaredTypeName))],
                       .obj [("type", .str "object"), ("properties", .obj properties)]])]
        | _ =>
            let properties := recSet [] discriminant
              (Js.obj [("type", .str "string"),
                       ("enum", .arr [.str singleUnionType.discriminantValue])])
            let properties := recSet properties discriminant convertedValueType
            Js.obj [("type", .str "object"), ("properties", .obj properties)]
      let restConverted ← convertUnionTypes discriminant rest
      return schema :: restConverted

/-- `convertUnion`: `oneOf` over the variants plus `description`. -/
def convertUnion (unionTypeDeclaration : UnionTypeDeclaration) (docs : Option String) :
    Except String Js := do
  let oneOfTypes ← convertUnionTypes unionTypeDeclaration.discriminant unionTypeDeclaration.types
  return .obj [("oneOf", .arr oneOfTypes), ("description", jsOfDocs docs)]

structure ConvertedType where
  openApiSchema : Js
  schemaName : String

/-- `convertType`: dispatch on the declaration's shape and pair the schema
with the resolved name. -/
def convertType (typeDeclaration : TypeDeclaration) : Except String ConvertedType := do
  let docs := typeDeclaration.docs
  let openApiSchema ←
    match typeDeclaration.shape with
    | .alias aliasTypeDeclaration => convertAlias aliasTypeDeclaration docs
    | .enum enumTypeDeclaration => .ok (convertEnum enumTypeDeclaration docs)
    | .object objectTypeDeclaration => convertObject objectTypeDeclaration docs
    | .union unionTypeDeclaration => convertUnion unionTypeDeclaration docs
    | .other tag => .error ("Encountered unknown type: " ++ tag)
  return { openApiSchema, schemaName := getNameFromDeclaredTypeName typeDeclaration.name }

/-! ### The auth converter -/

/-- The pascal-case casing of a header's human name, as carried by the IR. -/
structure NamePascalCase where
  unsafeName : String

/-- The cased forms of a header's human name. -/
structure HeaderHumanName where
  pascalCase : NamePascalCase

/-- A header's name: wire value plus cased human name. -/
structure HeaderName where
  wireValue : String
  name : HeaderHumanName

/-- The payload of a header auth scheme. -/
structure HeaderAuthScheme where
  name : HeaderName

/-- An auth scheme; `other` is an unrecognized `_type` tag. -/
inductive AuthScheme where
  | bearer
  | basic
  | header (header : HeaderAuthScheme)
  | other (tag : String)

/-- The requirement mode; `other` is an unrecognized tag. -/
inductive AuthSchemesRequirement where
  | all
  | any
  | other (tag : String)

structure ApiAuth where
  requirement : AuthSchemesRequirement
  schemes : List AuthScheme

/-- `getNameForAuthScheme`. -/
def getNameForAuthScheme (authScheme : AuthScheme) : Except String String :=
  match authScheme with
  | .bearer => .ok "BearerAuth"
  | .basic => .ok "BasicAuth"
  | .header header => .ok (header.name.name.pascalCase.unsafeName ++ "Auth")
  | .other tag => .error ("Unknown auth scheme: " ++ tag)

/-- `constructEndpointSecurity`: one combined requirement object under
`all`, one single-key object per scheme under `any`. Requirement objects
are ordered records from scheme name to (empty) scope list. -/
def constructEndpointSecurity (apiAuth : ApiAuth) :
    Except String (List (List (String × List String))) :=
  match apiAuth.requirement with
  | .all => do
      let requirementObject ← apiAuth.schemes.foldlM
        (fun acc scheme => do
          let name ← getNameForAuthScheme scheme
          return recSet acc name ([] : List String))
        ([] : List (String × List String))
      return [requirementObject]
  | .any =>
      apiAuth.schemes.mapM (fun scheme => do
        let name ← getNameForAuthScheme scheme
        return [(name, ([] : List String))])
  | .other tag => .error ("Unknown auth scheme requiremen: " ++ tag)

/-- The security-scheme object for one auth scheme (the `AuthScheme._visit`
inside `constructSecuritySchemes`). -/
def convertAuthScheme (scheme : AuthScheme) : Except String Js :=
  match scheme with
  | .bearer => .ok (.obj [("type", .str "http"), ("scheme", .str "bearer")])
  | .basic => .ok (.obj [("type", .str "http"), ("scheme", .str "basic")])
  | .header header =>
      .ok (.obj [("type", .str "apiKey"), ("in", .str "header"),
                 ("name", .str header.name.wireValue)])
  | .other tag => .error ("Unknown auth scheme: " ++ tag)

/-- `constructSecuritySchemes`: for each scheme in order, assign the
computed name to the scheme object (the key expression is evaluated first,
so an unknown scheme fails at name derivation). -/
def constructSecuritySchemes (apiAuth : ApiAuth) : Except String (List (String × Js)) :=
  apiAuth.schemes.foldlM
    (fun acc scheme => do
      let name ← getNameForAuthScheme scheme
      let schemeObject ← convertAuthScheme scheme
      return recSet acc name schemeObject)
    ([] : List (String × Js))

/-! ### Helpers for stating and proving properties -/

/-- Whether an `Except` computation succeeded. -/
def exOk {α : Type} : Except String α → Bool
  | .ok _ => true
  | .error _ => false

/-- The value of a successful `Except` computation, with a default. -/
def exGet {α : Type} (dflt : α) : Except String α → α
  | .ok a => a
  | .error _ => dflt

theorem exOk_eq_ok {α : Type} (dflt : α) (e : Except String α) (h : exOk e = true) :
    e = .ok (exGet dflt e) := by
  cases e with
  | ok a => rfl
  | error e => simp [exOk] at h

/-- A primitive kind drawn from the closed variant set. -/
def wfPrimitiveType : PrimitiveType → Bool
  | .other _ => false
  | _ => true

mutual
/-- A type reference built only from closed-set variants. -/
def wfTypeReference : TypeReference → Bool
  | .container containerType => wfContainerType containerType
  | .named _ => true
  | .primitive primitiveType => wfPrimitiveType primitiveType
  | .unknown => true
  | .void => true
  | .other _ => false

/-- A container type built only from closed-set variants. -/
def wfContainerType : ContainerType → Bool
  | .list itemType => wfTypeReference itemType
  | .set itemType => wfTypeReference itemType
  | .map keyType valueType => wfTypeReference keyType && wfTypeReference valueType
  | .optional itemType => wfTypeReference itemType
  | .other _ => false
end

/-- A type-declaration shape built only from closed-set variants. -/
def wfShape : TypeShape → Bool
  | .alias aliasTypeDeclaration => wfTypeReference aliasTypeDeclaration.aliasOf
  | .enum _ => true
  | .object objectTypeDeclaration =>
      objectTypeDeclaration.properties.all (fun p => wfTypeReference p.valueType)
  | .union unionTypeDeclaration =>
      unionTypeDeclaration.types.all (fun t => wfTypeReference t.valueType)
  | .other _ => false

def wfTypeDeclaration (typeDeclaration : TypeDeclaration) : Bool :=
  wfShape typeDeclaration.shape

/-- An auth scheme drawn from the closed variant set. -/
def wfAuthScheme : AuthScheme → Bool
  | .other _ => false
  | _ => true

/-- A requirement mode drawn from the closed variant set. -/
def wfAuthSchemesRequirement : AuthSchemesRequirement → Bool
  | .other _ => false
  | _ => true

def wfApiAuth (apiAuth : ApiAuth) : Bool :=
  wfAuthSchemesRequirement apiAuth.requirement && apiAuth.schemes.all wfAuthScheme

/-- The schema a well-formed object property converts to: the converted
value type with the property's docs set as `description`. -/
def propertySchemaOf (objectProperty : ObjectProperty) : Js :=
  jsSpreadSet (exGet (Js.obj []) (convertTypeReference objectProperty.valueType))
    "description" (jsOfDocs objectProperty.docs)

/-- The schema one union variant converts to: for a named value type, the
referenced type merged (via `allOf`) with the discriminant tag enum; for
any other value type, the converted payload stored directly under the
discriminant key. -/
def unionVariantSchema (discriminant : String) (singleUnionType : SingleUnionType) : Js :=
  match singleUnionType.valueType with
  | .named declaredTypeName =>
      Js.obj [("type", .str "object"),
              ("allOf", .arr
                [.obj [("$ref", .str (getReferenceFromDeclaredTypeName declaredTypeName))],
                 .obj [("type", .str "object"),
                       ("properties", .obj
                         [(discriminant,
                           Js.obj [("type", .str "string"),
                                   ("enum", .arr [.str singleUnionType.discriminantValue])])])]])]
  | _ =>
      Js.obj [("type", .str "object"),
              ("properties", .obj
                [(discriminant,
                  exGet (Js.obj []) (convertTypeReference singleUnionType.valueType))])]

/-- The computed name of a well-formed auth scheme. -/
def authSchemeName (scheme : AuthScheme) : String :=
  exGet "" (getNameForAuthScheme scheme)

mutual
theorem convertTypeReference_ok (t : TypeReference) (h : wfTypeReference t = true) :
    exOk (convertTypeReference t) = true :=
  match t, h with
  | .container c, h => convertContainerType_ok c h
  | .named _, _ => rfl
  | .primitive p, h => by
      cases p <;> first
        | rfl
        | simp [wfTypeReference, wfPrimitiveType] at h
  | .unknown, _ => rfl
  | .void, _ => rfl
  | .other _, h => by simp [wfTypeReference] at h

theorem convertContainerType_ok (c : ContainerType) (h : wfContainerType c = true) :
    exOk (convertContainerType c) = true :=
  match c, h with
  | .list t, h => by
      have h1 := convertTypeReference_ok t h
      cases hc : convertTypeReference t with
      | ok v => simp [convertContainerType, hc, exOk]
      | error e => rw [hc] at h1; simp [exOk] at h1
  | .set t, h => by
      have h1 := convertTypeReference_ok t h
      cases hc : convertTypeReference t with
      | ok v => simp [convertContainerType, hc, exOk]
      | error e => rw [hc] at h1; simp [exOk] at h1
  | .map k v, h => by
      have h1 := convertTypeReference_ok v (by
        have := h
        simp [wfContainerType] at this
        exact this.2)
      cases hc : convertTypeReference v with
      | ok w => simp [convertContainerType, hc, exOk]
      | error e => rw [hc] at h1; simp [exOk] at h1
  | .optional t, h => convertTypeReference_ok t h
  | .other _, h => by simp [wfContainerType] at h
end

theorem recSet_of_not_mem {α : Type} (l : List (String × α)) (k : String) (v : α)
    (h : k ∉ l.map Prod.fst) : recSet l k v = l ++ [(k, v)] := by
  simp [recSet, h]

theorem foldl_recSet_append {α : Type} (l : List (String × α)) (acc : List (String × α))
    (hn : (l.map Prod.fst).Nodup)
    (hd : ∀ k ∈ l.map Prod.fst, k ∉ acc.map Prod.fst) :
    l.foldl (fun a f => recSet a f.1 f.2) acc = acc ++ l := by
  induction l generalizing acc with
  | nil => simp
  | cons f rest ih =>
      have hk : f.1 ∉ acc.map Prod.fst := hd f.1 (by simp)
      rw [List.foldl_cons, recSet_of_not_mem _ _ _ hk, ih]
      · simp
      · exact (List.nodup_cons.mp (by simpa using hn)).2
      · intro k hkmem
        simp only [List.map_append, List.map_cons, List.map_nil, List.mem_append,
          List.mem_singleton, not_or]
        refine ⟨hd k (by simp [hkmem]), ?_⟩
        intro hkeq
        exact absurd (hkeq ▸ hkmem) (List.nodup_cons.mp (by simpa using hn)).1

theorem convertObjectProperties_eq (ps : List ObjectProperty) (acc : List (String × Js))
    (req : List String) (h : ∀ p ∈ ps, exOk (convertTypeReference p.valueType) = true) :
    convertObjectProperties ps acc req =
      .ok (ps.foldl (fun a p => recSet a p.key (propertySchemaOf p)) acc,
           req ++ (ps.filter (fun p => !isOptionalProperty p.valueType)).map
             (fun p => p.key)) := by
  induction ps generalizing acc req with
  | nil => simp [convertObjectProperties]
  | cons p rest ih =>
      obtain ⟨v, hv⟩ : ∃ v, convertTypeReference p.valueType = .ok v :=
        ⟨_, exOk_eq_ok (Js.obj []) _ (h p (by simp))⟩
      have hps : propertySchemaOf p = jsSpreadSet v "description" (jsOfDocs p.docs) := by
        simp [propertySchemaOf, hv, exGet]
      rw [convertObjectProperties, hv]
      cases hopt : isOptionalProperty p.valueType with
      | false =>
          simp only [Bind.bind, Except.bind, hopt, Bool.false_eq_true, if_false]
          rw [ih _ _ (fun q hq => h q (by simp [hq]))]
          simp [hps, List.filter_cons, hopt]
      | true =>
          simp only [Bind.bind, Except.bind, hopt, if_true]
          rw [ih _ _ (fun q hq => h q (by simp [hq]))]
          simp [hps, List.filter_cons, hopt]

theorem convertObject_eq (o : ObjectTypeDeclaration) (docs : Option String)
    (h : ∀ p ∈ o.properties, exOk (convertTypeReference p.valueType) = true) :
    convertObject o docs = .ok (.obj (
      [("type", Js.str "object"),
       ("description", jsOfDocs docs),
       ("properties", Js.obj
         (o.properties.foldl (fun a p => recSet a p.key (propertySchemaOf p)) [])),
       ("required", Js.arr
         (((o.properties.filter (fun p => !isOptionalProperty p.valueType)).map
           (fun p => p.key)).map Js.str))]
      ++ (if o.extends_.isEmpty then [] else
          [("allOf", Js.arr (o.extends_.map (fun declaredTypeName =>
            Js.obj [("$ref",
              Js.str (getReferenceFromDeclaredTypeName declaredTypeName))])))]))) := by
  rw [convertObject, convertObjectProperties_eq _ _ _ h]
  cases he : o.extends_ with
  | nil => simp [Bind.bind, Except.bind, Pure.pure, Except.pure, he]
  | cons e rest => simp [Bind.bind, Except.bind, Pure.pure, Except.pure, he]

theorem foldl_recSet_eq_map (ps : List ObjectProperty)
    (hn : (ps.map (fun p => p.key)).Nodup) :
    ps.foldl (fun a p => recSet a p.key (propertySchemaOf p)) [] =
      ps.map (fun p => (p.key, propertySchemaOf p)) := by
  have hfold := foldl_recSet_append (ps.map (fun p => (p.key, propertySchemaOf p))) []
    (by simpa [List.map_map, Function.comp] using hn) (by simp)
  rw [List.foldl_map] at hfold
  simpa using hfold

theorem convertUnionTypes_eq (disc : String) (ts : List SingleUnionType)
    (h : ∀ t ∈ ts, exOk (convertTypeReference t.valueType) = true) :
    convertUnionTypes disc ts = .ok (ts.map (unionVariantSchema disc)) := by
  induction ts with
  | nil => rfl
  | cons t rest ih =>
      obtain ⟨v, hv⟩ : ∃ v, convertTypeReference t.valueType = .ok v :=
        ⟨_, exOk_eq_ok (Js.obj []) _ (h t (by simp))⟩
      have hrest := ih (fun q hq => h q (by simp [hq]))
      obtain ⟨dv, vt⟩ := t
      cases vt <;>
        simp_all [convertUnionTypes, Bind.bind, Except.bind, Pure.pure, Except.pure,
          unionVariantSchema, recSet, exGet]

theorem convertUnion_eq (u : UnionTypeDeclaration) (docs : Option String)
    (h : ∀ t ∈ u.types, exOk (convertTypeReference t.valueType) = true) :
    convertUnion u docs = .ok (.obj
      [("oneOf", Js.arr (u.types.map (unionVariantSchema u.discriminant))),
       ("description", jsOfDocs docs)]) := by
  rw [convertUnion, convertUnionTypes_eq _ _ h]
  rfl

theorem convertAlias_eq (a : AliasTypeDeclaration) (docs : Option String)
    (h : exOk (convertTypeReference a.aliasOf) = true) :
    convertAlias a docs = .ok (jsSpreadSet (exGet (Js.obj []) (convertTypeReference a.aliasOf))
      "description" (jsOfDocs docs)) := by
  obtain ⟨v, hv⟩ : ∃ v, convertTypeReference a.aliasOf = .ok v := ⟨_, exOk_eq_ok (Js.obj []) _ h⟩
  rw [convertAlias, hv]
  simp [Bind.bind, Except.bind, Pure.pure, Except.pure, hv, exGet]

theorem convertType_ok (typeDeclaration : TypeDeclaration)
    (h : wfTypeDeclaration typeDeclaration = true) :
    exOk (convertType typeDeclaration) = true := by
  obtain ⟨nm, docs, shape⟩ := typeDeclaration
  cases shape
  next a =>
    have h1 : exOk (convertTypeReference a.aliasOf) = true :=
      convertTypeReference_ok _ (by simpa [wfTypeDeclaration, wfShape] using h)
    have hv := convertAlias_eq a docs h1
    simp [convertType, Bind.bind, Except.bind, Pure.pure, Except.pure, hv, exOk]
  next e => rfl
  next o =>
    have h1 : ∀ p ∈ o.properties, exOk (convertTypeReference p.valueType) = true := by
      intro p hp
      apply convertTypeReference_ok
      simp [wfTypeDeclaration, wfShape, List.all_eq_true] at h
      exact h p hp
    have hv := convertObject_eq o docs h1
    simp [convertType, Bind.bind, Except.bind, Pure.pure, Except.pure, hv, exOk]
  next u =>
    have h1 : ∀ t ∈ u.types, exOk (convertTypeReference t.valueType) = true := by
      intro t ht
      apply convertTypeReference_ok
      simp [wfTypeDeclaration, wfShape, List.all_eq_true] at h
      exact h t ht
    have hv := convertUnion_eq u docs h1
    simp [convertType, Bind.bind, Except.bind, Pure.pure, Except.pure, hv, exOk]
  next tag => simp [wfTypeDeclaration, wfShape] at h

theorem getNameForAuthScheme_ok (scheme : AuthScheme) (h : wfAuthScheme scheme = true) :
    getNameForAuthScheme scheme = .ok (authSchemeName scheme) := by
  cases scheme <;> simp_all [getNameForAuthScheme, authSchemeName, exGet, wfAuthScheme]

theorem convertAuthScheme_ok (scheme : AuthScheme) (h : wfAuthScheme scheme = true) :
    exOk (convertAuthScheme scheme) = true := by
  cases scheme <;> simp_all [convertAuthScheme, exOk, wfAuthScheme]

theorem endpointSecurity_all_foldlM (schemes : List AuthScheme)
    (acc : List (String × List String)) (h : ∀ s ∈ schemes, wfAuthScheme s = true) :
    (schemes.foldlM (fun acc scheme => do
        let name ← getNameForAuthScheme scheme
        return recSet acc name ([] : List String)) acc) =
      .ok (schemes.foldl (fun acc scheme => recSet acc (authSchemeName scheme) []) acc) := by
  induction schemes generalizing acc with
  | nil => rfl
  | cons s rest ih =>
      have hih := ih (recSet acc (authSchemeName s) []) (fun q hq => h q (by simp [hq]))
      simp only [List.foldlM_cons, List.foldl_cons]
      rw [getNameForAuthScheme_ok s (h s (by simp))]
      exact hih

theorem securitySchemes_foldlM_ok (schemes : List AuthScheme) (acc : List (String × Js))
    (h : ∀ s ∈ schemes, wfAuthScheme s = true) :
    exOk (schemes.foldlM (fun acc scheme => do
        let name ← getNameForAuthScheme scheme
        let schemeObject ← convertAuthScheme scheme
        return recSet acc name schemeObject) acc) = true := by
  induction schemes generalizing acc with
  | nil => rfl
  | cons s rest ih =>
      have hih := ih
        (recSet acc (authSchemeName s) (exGet (Js.obj []) (convertAuthScheme s)))
        (fun q hq => h q (by simp [hq]))
      simp only [List.foldlM_cons]
      rw [getNameForAuthScheme_ok s (h s (by simp)),
        exOk_eq_ok (Js.obj []) _ (convertAuthScheme_ok s (h s (by simp)))]
      exact hih

theorem endpointSecurity_any_mapM (schemes : List AuthScheme)
    (h : ∀ s ∈ schemes, wfAuthScheme s = true) :
    (schemes.mapM (fun scheme => do
        let name ← getNameForAuthScheme scheme
        return [(name, ([] : List String))])) =
      .ok (schemes.map (fun s => [(authSchemeName s, ([] : List String))])) := by
  induction schemes with
  | nil => rfl
  | cons s rest ih =>
      rw [List.mapM_cons, getNameForAuthScheme_ok s (h s (by simp)),
        ih (fun q hq => h q (by simp [hq]))]
      rfl

theorem foldl_recSet_auth_eq_map (schemes : List AuthScheme)
    (hnodup : (schemes.map authSchemeName).Nodup) :
    schemes.foldl (fun acc s => recSet acc (authSchemeName s) []) [] =
      schemes.map (fun s => (authSchemeName s, ([] : List String))) := by
  have hfold := foldl_recSet_append
    (schemes.map (fun s => (authSchemeName s, ([] : List String)))) []
    (by simpa [List.map_map, Function.comp] using hnodup) (by simp)
  rw [List.foldl_map] at hfold
  simpa using hfold

/-! ### Facts about the word tokenizer, for name non-emptiness -/

theorem wordsStep_keeps_some (s : List (List Char) × List Char) (c : Char)
    (h : s.1 ≠ [] ∨ s.2 ≠ []) :
    (wordsStep s c).1 ≠ [] ∨ (wordsStep s c).2 ≠ [] := by
  obtain ⟨acc, w⟩ := s
  simp only [wordsStep]
  split_ifs <;> simp_all

theorem wordsStep_wordChar (s : List (List Char) × List Char) (c : Char)
    (h : isWordChar c = true) : (wordsStep s c).2 ≠ [] := by
  obtain ⟨acc, w⟩ := s
  simp only [wordsStep]
  split_ifs <;> simp_all [isWordChar, Char.isAlpha]

theorem foldl_wordsStep_keeps_some (l : List Char) (s : List (List Char) × List Char)
    (h : l.any isWordChar = true ∨ s.1 ≠ [] ∨ s.2 ≠ []) :
    (l.foldl wordsStep s).1 ≠ [] ∨ (l.foldl wordsStep s).2 ≠ [] := by
  induction l generalizing s with
  | nil => simpa using h
  | cons c rest ih =>
      rw [List.foldl_cons]
      cases hc : isWordChar c with
      | true => exact ih _ (Or.inr (Or.inr (wordsStep_wordChar s c hc)))
      | false =>
          apply ih
          rcases h with hany | hs
          · rw [List.any_cons, hc, Bool.false_or] at hany
            exact Or.inl hany
          · exact Or.inr (wordsStep_keeps_some s c hs)

theorem lodashWords_ne_nil (l : List Char) (h : l.any isWordChar = true) :
    lodashWords l ≠ [] := by
  have hsome := foldl_wordsStep_keeps_some l ([], []) (Or.inl h)
  rw [lodashWords]
  rcases hsome with h1 | h2
  · intro hcon
    rcases Decidable.em ((l.foldl wordsStep ([], [])).2.isEmpty = true) with he | he
    · simp [he] at hcon
      exact h1 hcon
    · simp [he] at hcon
  · intro hcon
    rcases Decidable.em ((l.foldl wordsStep ([], [])).2.isEmpty = true) with he | he
    · simp_all [List.isEmpty_iff]
    · simp [he] at hcon

theorem wordsStep_fst (acc : List (List Char)) (w : List Char) (c : Char) :
    (wordsStep (acc, w) c).1 = acc ∨
      ∃ u, u ≠ [] ∧ (wordsStep (acc, w) c).1 = acc ++ [u] := by
  simp only [wordsStep]
  split_ifs with h1 h2 h3 h4 h5 h6 h7 h8
  · exact Or.inl rfl
  · refine Or.inr ⟨w, ?_, rfl⟩
    intro hw
    exact h2 (by simp [hw])
  · refine Or.inr ⟨w.dropLast, ?_, rfl⟩
    simp only [Bool.and_eq_true, decide_eq_true_eq] at h4
    have hlen : w.dropLast.length = w.length - 1 := List.length_dropLast w
    intro hcon
    rw [hcon] at hlen
    simp at hlen
    omega
  · refine Or.inr ⟨w, ?_, rfl⟩
    simp only [Bool.and_eq_true, Bool.not_eq_true'] at h5
    intro hw
    rw [hw] at h5
    simp [List.isEmpty_nil] at h5
  · exact Or.inl rfl
  · exact Or.inl rfl
  · refine Or.inr ⟨w, ?_, rfl⟩
    intro hw
    rw [hw] at h7
    simp at h7
  · exact Or.inl rfl
  · refine Or.inr ⟨w, ?_, rfl⟩
    intro hw
    rw [hw] at h8
    simp at h8

theorem wordsStep_no_nil_word (s : List (List Char) × List Char) (c : Char)
    (h : [] ∉ s.1) : [] ∉ (wordsStep s c).1 := by
  obtain ⟨acc, w⟩ := s
  rcases wordsStep_fst acc w c with hfst | ⟨u, hu, hfst⟩ <;> rw [hfst]
  · exact h
  · intro hcon
    rcases List.mem_append.mp hcon with hmem | hmem
    · exact h hmem
    · simp only [List.mem_singleton] at hmem
      exact hu hmem.symm

theorem foldl_wordsStep_no_nil_word (l : List Char) (s : List (List Char) × List Char)
    (h : [] ∉ s.1) : [] ∉ (l.foldl wordsStep s).1 := by
  induction l generalizing s with
  | nil => simpa using h
  | cons c rest ih => exact ih _ (wordsStep_no_nil_word s c h)

theorem lodashWords_no_nil (l : List Char) : [] ∉ lodashWords l := by
  have hacc := foldl_wordsStep_no_nil_word l ([], []) (by simp)
  rw [lodashWords]
  rcases Decidable.em ((l.foldl wordsStep ([], [])).2.isEmpty = true) with he | he
  · simpa [he] using hacc
  · simp only [he, if_false]
    intro hcon
    rcases List.mem_append.mp hcon with hmem | hmem
    · exact hacc hmem
    · simp only [List.mem_singleton] at hmem
      rw [← hmem, List.isEmpty_nil] at he
      exact he rfl

theorem lodashWords_head_ne_nil (l : List Char) (w : List Char) (ws : List (List Char))
    (h : lodashWords l = w :: ws) : w ≠ [] := by
  intro hw
  exact lodashWords_no_nil l (by rw [h, hw]; simp)

theorem lodashCamelCase_ne_empty (s : String) (h : s.data.any isWordChar = true) :
    lodashCamelCase s ≠ "" := by
  have hfilter : (s.data.filter (fun c => c ≠ Char.ofNat 39)).any isWordChar = true := by
    rw [List.any_eq_true] at h ⊢
    obtain ⟨c, hc, hwc⟩ := h
    refine ⟨c, List.mem_filter.mpr ⟨hc, ?_⟩, hwc⟩
    have : isWordChar (Char.ofNat 39) = false := by decide
    simp only [decide_eq_true_eq]
    intro heq
    rw [← heq, hwc] at this
    exact Bool.true_eq_false.mp this
  have hne := lodashWords_ne_nil _ hfilter
  rw [lodashCamelCase]
  cases hw : lodashWords (s.data.filter (fun c => c ≠ Char.ofNat 39)) with
  | nil => exact absurd hw hne
  | cons w ws =>
      have hwne := lodashWords_head_ne_nil _ _ _ hw
      simp only [hw]
      intro hcon
      have : (lowerWord w ++ (ws.map capitalizeWord).flatten) = [] := by
        have := congrArg String.data hcon
        simpa using this
      rw [List.append_eq_nil] at this
      exact hwne (by simpa [lowerWord] using this.1)

theorem upperFirst_ne_empty (s : String) (h : s ≠ "") : upperFirst s ≠ "" := by
  rw [upperFirst]
  cases hd : s.data with
  | nil =>
      exfalso
      apply h
      cases s
      simp_all
  | cons c cs =>
      intro hcon
      have := congrArg String.data hcon
      simp at this

theorem joinTokens_any (l : List String) (x : String) (h : x.data.any isWordChar = true) :
    (joinTokens (l ++ [x])).data.any isWordChar = true := by
  induction l with
  | nil => simpa [joinTokens] using h
  | cons t rest ih =>
      cases rest with
      | nil =>
          simp only [List.nil_append, List.cons_append, joinTokens, String.data_append,
            List.any_append]
          simp [h]
      | cons u rest2 =>
          simp only [List.cons_append, joinTokens, String.data_append, List.any_append]
          rw [List.cons_append] at ih
          simp [ih]

/-! ### Claim theorems -/

/-- C1: For every `DeclaredTypeName`, the resolved schema name is obtained
by joining the path segments and the leaf name with single spaces,
camel-casing the joined phrase (normalizing both segment boundaries and
internal word boundaries), and upper-casing the first letter; the reference
string is `#/components/schemas/` followed by that name. In particular,
path `["core", "models"]` with leaf name `"user"` gives schema name
`CoreModelsUser` and the corresponding reference. -/
theorem getNameFromDeclaredTypeName_spec :
    (∀ d : DeclaredTypeName,
      getNameFromDeclaredTypeName d =
        upperFirst (lodashCamelCase (joinTokens (d.fernFilepath ++ [d.name]))) ∧
      getReferenceFromDeclaredTypeName d =
        "#/components/schemas/" ++ getNameFromDeclaredTypeName d) ∧
    getNameFromDeclaredTypeName ⟨["core", "models"], "user"⟩ = "CoreModelsUser" ∧
    getReferenceFromDeclaredTypeName ⟨["core", "models"], "user"⟩ =
      "#/components/schemas/CoreModelsUser" :=
  ⟨fun _ => ⟨rfl, rfl⟩, by decide, by decide⟩

/-- C2: A `named` type reference converts to exactly a `$ref` object
pointing at the resolved schema name; the referenced declaration is never
inlined (the conversion does not depend on any declaration body). -/
theorem convertTypeReference_named_spec (d : DeclaredTypeName) :
    convertTypeReference (.named d) =
      .ok (.obj [("$ref",
        .str ("#/components/schemas/" ++ getNameFromDeclaredTypeName d))]) := rfl

/-- C3: Converting `optional(T)` yields exactly the conversion of `T`:
optionality is erased structurally at the reference level. -/
theorem convertTypeReference_optional_spec (t : TypeReference) :
    convertTypeReference (.container (.optional t)) = convertTypeReference t := rfl

/-- C4: For an object declaration whose property value types are
well-formed and whose keys are distinct, the output's properties appear in
declared order, each being the conversion of the property's value type
with the property's docs attached as `description`, and the required list
contains exactly the keys of the non-optional properties in declared
order. -/
theorem convertObject_spec (o : ObjectTypeDeclaration) (docs : Option String)
    (hwf : ∀ p ∈ o.properties, wfTypeReference p.valueType = true)
    (hkeys : (o.properties.map (fun p => p.key)).Nodup) :
    convertObject o docs = .ok (.obj (
      [("type", Js.str "object"),
       ("description", jsOfDocs docs),
       ("properties", Js.obj (o.properties.map (fun p => (p.key, propertySchemaOf p)))),
       ("required", Js.arr
         (((o.properties.filter (fun p => !isOptionalProperty p.valueType)).map
           (fun p => p.key)).map Js.str))]
      ++ (if o.extends_.isEmpty then [] else
          [("allOf", Js.arr (o.extends_.map (fun declaredTypeName =>
            Js.obj [("$ref",
              Js.str (getReferenceFromDeclaredTypeName declaredTypeName))])))]))) := by
  have h := convertObject_eq o docs (fun p hp => convertTypeReference_ok _ (hwf p hp))
  rw [h, foldl_recSet_eq_map _ hkeys]

theorem convertObject_spec_witness :
    convertObject
      ⟨[⟨"id", .primitive .string, some "the id"⟩,
        ⟨"age", .container (.optional (.primitive .integer)), none⟩], []⟩
      (some "a user") =
    .ok (.obj
      [("type", Js.str "object"),
       ("description", Js.str "a user"),
       ("properties", Js.obj
         [("id", Js.obj [("type", Js.str "string"), ("description", Js.str "the id")]),
          ("age", Js.obj [("type", Js.str "integer"), ("description", Js.undef)])]),
       ("required", Js.arr [Js.str "id"])]) := by
  rw [convertObject_spec _ _ (by decide) (by decide)]
  rfl

/-- C5: A union declaration converts to `{oneOf, description}` with one
entry per variant in declared order; a named variant becomes an `allOf` of
the `$ref` to the named type and an object carrying the discriminant as a
single-value string enum, while any other variant stores the converted
payload directly under the discriminant key (the tag enum is overwritten),
as captured by `unionVariantSchema`. -/
theorem convertUnion_spec (u : UnionTypeDeclaration) (docs : Option String)
    (hwf : ∀ t ∈ u.types, wfTypeReference t.valueType = true) :
    convertUnion u docs = .ok (.obj
      [("oneOf", Js.arr (u.types.map (unionVariantSchema u.discriminant))),
       ("description", jsOfDocs docs)]) :=
  convertUnion_eq u docs (fun t ht => convertTypeReference_ok _ (hwf t ht))

theorem convertUnion_spec_witness :
    convertUnion
      ⟨"kind", [⟨"named1", .named ⟨["a"], "b"⟩⟩, ⟨"prim1", .primitive .string⟩]⟩
      none =
    .ok (.obj
      [("oneOf", Js.arr
        [Js.obj [("type", Js.str "object"),
                 ("allOf", Js.arr
                   [Js.obj [("$ref", Js.str "#/components/schemas/AB")],
                    Js.obj [("type", Js.str "object"),
                            ("properties", Js.obj
                              [("kind", Js.obj [("type", Js.str "string"),
                                ("enum", Js.arr [Js.str "named1"])])])]])],
         Js.obj [("type", Js.str "object"),
                 ("properties", Js.obj
                   [("kind", Js.obj [("type", Js.str "string")])])]]),
       ("description", Js.undef)]) := by
  rw [convertUnion_spec _ _ (by decide)]
  rfl

/-- C6: For an object declaration with well-formed property value types,
a non-empty `extends` list adds an `allOf` field holding one `$ref` per
supertype in declared order, as a sibling of `type`, `description`,
`properties` and `required`; an empty `extends` list adds no `allOf`
field. -/
theorem convertObject_extends_spec (o : ObjectTypeDeclaration) (docs : Option String)
    (hwf : ∀ p ∈ o.properties, wfTypeReference p.valueType = true) :
    (o.extends_ ≠ [] →
      convertObject o docs = .ok (.obj
        [("type", Js.str "object"),
         ("description", jsOfDocs docs),
         ("properties", Js.obj
           (o.properties.foldl (fun a p => recSet a p.key (propertySchemaOf p)) [])),
         ("required", Js.arr
           (((o.properties.filter (fun p => !isOptionalProperty p.valueType)).map
             (fun p => p.key)).map Js.str)),
         ("allOf", Js.arr (o.extends_.map (fun declaredTypeName =>
           Js.obj [("$ref",
             Js.str (getReferenceFromDeclaredTypeName declaredTypeName))])))])) ∧
    (o.extends_ = [] →
      convertObject o docs = .ok (.obj
        [("type", Js.str "object"),
         ("description", jsOfDocs docs),
         ("properties", Js.obj
           (o.properties.foldl (fun a p => recSet a p.key (propertySchemaOf p)) [])),
         ("required", Js.arr
           (((o.properties.filter (fun p => !isOptionalProperty p.valueType)).map
             (fun p => p.key)).map Js.str))])) := by
  have h := convertObject_eq o docs (fun p hp => convertTypeReference_ok _ (hwf p hp))
  constructor
  · intro hne
    rw [h]
    have hemp : o.extends_.isEmpty = false := by
      cases hx : o.extends_ with
      | nil => exact absurd hx hne
      | cons e rest => rfl
    simp [hemp]
  · intro hemp
    rw [h, hemp]
    simp

theorem convertObject_extends_spec_witness :
    convertObject ⟨[], [⟨[], "a"⟩, ⟨[], "b"⟩]⟩ none =
      .ok (.obj
        [("type", Js.str "object"),
         ("description", Js.undef),
         ("properties", Js.obj []),
         ("required", Js.arr []),
         ("allOf", Js.arr
           [Js.obj [("$ref", Js.str "#/components/schemas/A")],
            Js.obj [("$ref", Js.str "#/components/schemas/B")]])]) := by
  rw [(convertObject_extends_spec ⟨[], [⟨[], "a"⟩, ⟨[], "b"⟩]⟩ none (by decide)).1
    (by decide)]
  rfl

/-- C7: For an `ApiAuth` with a recognized requirement mode, well-formed
schemes and distinct computed names: under `all` the result is one
requirement object mapping every scheme's computed name to an empty scope
list, and under `any` it is one single-key requirement object per scheme,
in declared scheme order. -/
theorem constructEndpointSecurity_spec (apiAuth : ApiAuth)
    (hwf : ∀ s ∈ apiAuth.schemes, wfAuthScheme s = true)
    (hnodup : (apiAuth.schemes.map authSchemeName).Nodup) :
    (apiAuth.requirement = .all →
      constructEndpointSecurity apiAuth =
        .ok [apiAuth.schemes.map (fun s => (authSchemeName s, ([] : List String)))]) ∧
    (apiAuth.requirement = .any →
      constructEndpointSecurity apiAuth =
        .ok (apiAuth.schemes.map (fun s => [(authSchemeName s, ([] : List String))]))) := by
  obtain ⟨req, schemes⟩ := apiAuth
  constructor
  · intro hreq
    cases hreq
    simp only [constructEndpointSecurity]
    rw [endpointSecurity_all_foldlM schemes [] hwf]
    simp only [Bind.bind, Except.bind, Pure.pure, Except.pure]
    rw [foldl_recSet_auth_eq_map schemes hnodup]
  · intro hreq
    cases hreq
    simp only [constructEndpointSecurity]
    exact endpointSecurity_any_mapM schemes hwf

theorem constructEndpointSecurity_spec_witness :
    constructEndpointSecurity ⟨.all, [.bearer, .basic]⟩ =
      .ok [[("BearerAuth", []), ("BasicAuth", [])]] ∧
    constructEndpointSecurity ⟨.any, [.bearer, .basic]⟩ =
      .ok [[("BearerAuth", [])], [("BasicAuth", [])]] := by
  constructor
  · rw [(constructEndpointSecurity_spec ⟨.all, [.bearer, .basic]⟩
      (by decide) (by decide)).1 rfl]
    rfl
  · rw [(constructEndpointSecurity_spec ⟨.any, [.bearer, .basic]⟩
      (by decide) (by decide)).2 rfl]
    rfl

/-- C9 counterexample: the claim asserts a non-empty result for every
input, but an empty leaf name with an empty path resolves to the empty
string. -/
theorem getName_empty_name_counterexample :
    getNameFromDeclaredTypeName ⟨[], ""⟩ = "" := by decide

/-- C9 (amended): name resolution is total (it returns a plain `String`,
with no failure mode), and it returns a non-empty string whenever the leaf
name contains at least one ASCII alphanumeric character — including when
the path is empty; with a leaf name containing no alphanumeric character
(such as the empty string) the result can be empty. -/
theorem getName_nonempty_spec (d : DeclaredTypeName)
    (h : d.name.data.any isWordChar = true) :
    getNameFromDeclaredTypeName d ≠ "" := by
  have hjoin := joinTokens_any d.fernFilepath d.name h
  exact upperFirst_ne_empty _ (lodashCamelCase_ne_empty _ hjoin)

theorem getName_nonempty_spec_witness :
    getNameFromDeclaredTypeName ⟨[], "user"⟩ ≠ "" :=
  getName_nonempty_spec ⟨[], "user"⟩ (by decide)

/-- C10: For an object declaration with well-formed property value types,
the output always carries the four fields `type` (the string `object`),
`description`, `properties` and `required`, in this order; with an empty
property list both `properties` and `required` are empty, and when every
property is optional the `required` field is still present, as the empty
array. -/
theorem convertObject_fields_spec (o : ObjectTypeDeclaration) (docs : Option String)
    (hwf : ∀ p ∈ o.properties, wfTypeReference p.valueType = true) :
    convertObject o docs = .ok (.obj (
      [("type", Js.str "object"),
       ("description", jsOfDocs docs),
       ("properties", Js.obj
         (o.properties.foldl (fun a p => recSet a p.key (propertySchemaOf p)) [])),
       ("required", Js.arr
         (((o.properties.filter (fun p => !isOptionalProperty p.valueType)).map
           (fun p => p.key)).map Js.str))]
      ++ (if o.extends_.isEmpty then [] else
          [("allOf", Js.arr (o.extends_.map (fun declaredTypeName =>
            Js.obj [("$ref",
              Js.str (getReferenceFromDeclaredTypeName declaredTypeName))])))]))) ∧
    (o.properties = [] →
      o.properties.foldl (fun a p => recSet a p.key (propertySchemaOf p)) [] = [] ∧
      (o.properties.filter (fun p => !isOptionalProperty p.valueType)).map
        (fun p => p.key) = []) ∧
    ((∀ p ∈ o.properties, isOptionalProperty p.valueType = true) →
      (o.properties.filter (fun p => !isOptionalProperty p.valueType)).map
        (fun p => p.key) = []) := by
  refine ⟨convertObject_eq o docs (fun p hp => convertTypeReference_ok _ (hwf p hp)),
    ?_, ?_⟩
  · intro hemp
    rw [hemp]
    exact ⟨rfl, rfl⟩
  · intro hall
    have hfil : o.properties.filter (fun p => !isOptionalProperty p.valueType) = [] := by
      rw [List.filter_eq_nil_iff]
      intro p hp
      simp [hall p hp]
    rw [hfil]
    rfl

theorem convertObject_fields_spec_witness :
    convertObject ⟨[], []⟩ none =
      .ok (.obj
        [("type", Js.str "object"),
         ("description", Js.undef),
         ("properties", Js.obj []),
         ("required", Js.arr [])]) ∧
    convertObject ⟨[⟨"note", .container (.optional (.primitive .string)), none⟩], []⟩
      none =
      .ok (.obj
        [("type", Js.str "object"),
         ("description", Js.undef),
         ("properties", Js.obj
           [("note", Js.obj [("type", Js.str "string"), ("description", Js.undef)])]),
         ("required", Js.arr [])]) := by
  constructor
  · rw [(convertObject_fields_spec ⟨[], []⟩ none (by decide)).1]
    rfl
  · rw [(convertObject_fields_spec
      ⟨[⟨"note", .container (.optional (.primitive .string)), none⟩], []⟩ none
      (by decide)).1]
    rfl

/-- C8 counterexample: an input that carries a variant tag outside the
closed set — an unrecognized kind in a map's key-type position — is not
rejected: the converter succeeds, because it never inspects a map's key
type. -/
theorem mapKey_unknownTag_accepted :
    wfTypeReference (.container (.map (.other "badKeyKind") (.primitive .string))) =
      false ∧
    convertTypeReference (.container (.map (.other "badKeyKind") (.primitive .string))) =
      .ok (.obj [("type", Js.str "object"),
                 ("additionalProperties", Js.obj [("type", Js.str "string")])]) :=
  ⟨rfl, rfl⟩

/-- C8 (amended): each converter operation fails immediately with a
descriptive error when the variant tag it dispatches on (type shape,
reference kind, container kind, primitive kind, auth-scheme kind, or
requirement mode) is outside its closed set, never guessing a default —
but an unrecognized tag sitting in a position the converter never inspects
(a map's key type) is silently accepted; and every input built only from
the closed-set variants — including empty property lists, empty
union-variant lists, and empty path segments — succeeds. -/
theorem dispatch_errors_and_totality_spec :
    (∀ (nm : DeclaredTypeName) (docs : Option String) (tag : String),
      convertType ⟨nm, docs, .other tag⟩ =
        .error ("Encountered unknown type: " ++ tag)) ∧
    (∀ tag, convertTypeReference (.other tag) =
      .error ("Encountered unknown typeReference: " ++ tag)) ∧
    (∀ tag, convertContainerType (.other tag) =
      .error ("Encountered unknown containerType: " ++ tag)) ∧
    (∀ tag, convertPrimitiveType (.other tag) =
      .error ("Encountered unknown primitiveType: " ++ tag)) ∧
    (∀ (schemes : List AuthScheme) (tag : String),
      constructEndpointSecurity ⟨.other tag, schemes⟩ =
        .error ("Unknown auth scheme requiremen: " ++ tag)) ∧
    (∀ (req : AuthSchemesRequirement) (rest : List AuthScheme) (tag : String),
      constructSecuritySchemes ⟨req, .other tag :: rest⟩ =
        .error ("Unknown auth scheme: " ++ tag)) ∧
    (∀ typeDeclaration, wfTypeDeclaration typeDeclaration = true →
      exOk (convertType typeDeclaration) = true) ∧
    (∀ apiAuth, wfApiAuth apiAuth = true →
      exOk (constructEndpointSecurity apiAuth) = true ∧
      exOk (constructSecuritySchemes apiAuth) = true) := by
  refine ⟨fun _ _ _ => rfl, fun _ => rfl, fun _ => rfl, fun _ => rfl, fun _ _ => rfl,
    fun _ _ _ => rfl, convertType_ok, ?_⟩
  intro apiAuth ha
  obtain ⟨req, schemes⟩ := apiAuth
  rw [wfApiAuth, Bool.and_eq_true, List.all_eq_true] at ha
  obtain ⟨hreq, hschemes⟩ := ha
  constructor
  · cases req
    · simp only [constructEndpointSecurity]
      rw [endpointSecurity_all_foldlM schemes [] hschemes]
      rfl
    · simp only [constructEndpointSecurity]
      rw [endpointSecurity_any_mapM schemes hschemes]
      rfl
    · simp [wfAuthSchemesRequirement] at hreq
  · exact securitySchemes_foldlM_ok schemes [] hschemes

theorem dispatch_errors_and_totality_spec_witness :
    convertTypeReference (.other "mystery") =
      .error "Encountered unknown typeReference: mystery" ∧
    exOk (convertType ⟨⟨[], "thing"⟩, none, .object ⟨[], []⟩⟩) = true ∧
    exOk (constructEndpointSecurity ⟨.any, [.bearer]⟩) = true := by
  refine ⟨?_, ?_, ?_⟩
  · rw [dispatch_errors_and_totality_spec.2.1 "mystery"]
    rfl
  · exact dispatch_errors_and_totality_spec.2.2.2.2.2.2.1 _ (by decide)
  · exact (dispatch_errors_and_totality_spec.2.2.2.2.2.2.2 ⟨.any, [.bearer]⟩
      (by decide)).1
